import Mathlib

/-!
Shallow embedding of `src/Rust/src/shared/bundle.rs` (the velopack package-bundle
engine): the manifest XML decoder (`read_manifest_from_string`), the release
file-name grammar (`parse_package_file_name` and its four regular expressions),
and the pure control flow of the archive accessor (`find_zip_file`,
`get_splash_bytes`, `extract_lib_contents_to_path`).

Modelling conventions:
* Strings are treated as lists of characters (`String.data`); the Rust code
  slices by byte index, which coincides with character index on the inputs the
  regular expressions can match (their literal characters are all ASCII).
* `semver::Version` is modelled by `Bundle.Version` with `Nat` components
  (u64 overflow is not modelled) and the prerelease / build portions stored as
  raw validated strings, mirroring the crate's `Prerelease` / `BuildMetadata`.
* The external `xml-rs` pull parser is modelled by its output: a list of
  `XmlEvent`s.  `read_manifest_from_string` consumes exactly such a stream, so
  the embedding `read_manifest_from_events` takes the event list directly.
* Zip archives are modelled as lists of named entries.  An entry whose `data`
  is `none` is one whose bytes cannot be opened or read (the two zip-level
  failure modes are merged).  Filesystem writes are recorded in an explicit
  trace instead of being performed.  The progress callback's `i16` argument
  `((i as f32 / n as f32) * 100.0) as i16` is floating-point arithmetic and is
  NOT modelled; the trace instead records, for each invocation, the loop index
  `i` from which the program computes that argument.
* The regular expressions are embedded as explicit matchers with the regex
  crate's leftmost-first (first match position, greedy alternation/repetition)
  semantics; `(?i)` is modelled as the crate's simple case folding (see
  `simpleFold`).  Note that in
  `-full.nupkg$`, `-delta.nupkg$` and `_ExecutionStub.exe$` the dot before the
  extension is an unescaped wildcard matching any non-newline character.
-/

namespace Bundle

/-- The regex crate's `(?i)` flag applies Unicode simple case folding.  This
is its restriction to the characters that can fold into the ASCII letters and
punctuation the patterns are written in: the ASCII upper-case letters fold to
lower-case, U+212A KELVIN SIGN folds to `k` and U+017F LATIN SMALL LETTER
LONG S folds to `s` (the only non-ASCII characters whose simple fold is an
ASCII letter); every other character folds to itself. -/
def simpleFold (c : Char) : Char :=
  if 'A' ≤ c ∧ c ≤ 'Z' then Char.ofNat (c.toNat + 32)
  else if c = '\u212A' then 'k'
  else if c = '\u017F' then 's'
  else c

def isDigitCh (c : Char) : Bool := '0' ≤ c && c ≤ '9'

def digitVal (c : Char) : Nat := c.toNat - '0'.toNat

def natOfDigits (l : List Char) : Nat := l.foldl (fun a c => a * 10 + digitVal c) 0

/-- Model of `semver::Version`: numeric components plus the raw prerelease and
build-metadata strings (the crate's `Prerelease`/`BuildMetadata` are validated
strings, and `Eq` on `Version` compares all five fields). -/
structure Version where
  major : Nat
  minor : Nat
  patch : Nat
  pre : String
  build : String
deriving DecidableEq, Repr

/-- `semver::Version::new(0, 0, 0)`, the `derivative::Default` of the manifest
version field. -/
def Version.zero : Version := ⟨0, 0, 0, "", ""⟩

/-- One numeric semver component: `0`, or a digit run without a leading zero. -/
def parseNumComp (s : List Char) : Option (Nat × List Char) :=
  match s.takeWhile isDigitCh with
  | [] => none
  | '0' :: [] => some (0, s.drop 1)
  | '0' :: _ :: _ => none
  | ds => some (natOfDigits ds, s.drop ds.length)

def isIdentCh (c : Char) : Bool :=
  isDigitCh c || ('a' ≤ c && c ≤ 'z') || ('A' ≤ c && c ≤ 'Z') || c = '-'

/-- Split on `'.'`; `splitDots []` is `[[]]`, so an empty prerelease or build
section yields one empty (hence invalid) identifier, as in the crate. -/
def splitDots : List Char → List (List Char)
  | [] => [[]]
  | '.' :: rest => [] :: splitDots rest
  | c :: rest =>
    match splitDots rest with
    | [] => [[c]]
    | g :: gs => (c :: g) :: gs

/-- A valid prerelease identifier: nonempty, alphanumeric or hyphen, and a
purely numeric identifier must not have a leading zero. -/
def validPreIdent (g : List Char) : Bool :=
  !g.isEmpty && g.all isIdentCh &&
    (if g.all isDigitCh then g.head? ≠ some '0' || g.length == 1 else true)

/-- A valid build-metadata identifier: nonempty, alphanumeric or hyphen
(leading zeros allowed). -/
def validBuildIdent (g : List Char) : Bool :=
  !g.isEmpty && g.all isIdentCh

/-- Model of `semver::Version::parse`: `major.minor.patch` with optional
`-prerelease` and `+build` tails; `none` is a parse error. -/
def semverParse (s : List Char) : Option Version :=
  match parseNumComp s with
  | none => none
  | some (mj, r1) =>
    match r1 with
    | '.' :: r2 =>
      match parseNumComp r2 with
      | none => none
      | some (mn, r3) =>
        match r3 with
        | '.' :: r4 =>
          match parseNumComp r4 with
          | none => none
          | some (pt, r5) =>
            match r5 with
            | [] => some ⟨mj, mn, pt, "", ""⟩
            | '-' :: r6 =>
              let preCs := r6.takeWhile (· ≠ '+')
              if (splitDots preCs).all validPreIdent then
                match r6.dropWhile (· ≠ '+') with
                | [] => some ⟨mj, mn, pt, ⟨preCs⟩, ""⟩
                | '+' :: r8 =>
                  if (splitDots r8).all validBuildIdent then
                    some ⟨mj, mn, pt, ⟨preCs⟩, ⟨r8⟩⟩
                  else none
                | _ :: _ => none
              else none
            | '+' :: r6 =>
              if (splitDots r6).all validBuildIdent then
                some ⟨mj, mn, pt, "", ⟨r6⟩⟩
              else none
            | _ :: _ => none
        | _ => none
    | _ => none

/-! ## Manifest model and XML decoder (`read_manifest_from_string`) -/

/-- The `Manifest` struct; all string fields default to `""` and `version`
defaults to `Version::new(0, 0, 0)`. -/
structure Manifest where
  id : String
  version : Version
  title : String
  authors : String
  description : String
  machine_architecture : String
  runtime_dependencies : String
  main_exe : String
  os : String
  os_min_version : String
deriving DecidableEq, Repr

def Manifest.default : Manifest := ⟨"", Version.zero, "", "", "", "", "", "", "", ""⟩

/-- The events of the external `xml-rs` reader that `read_manifest_from_string`
distinguishes: `StartElement` (local name), `Characters`, `EndElement`, a
reader error (`Err(e)`), and every other event (the `_ => {}` arm). -/
inductive XmlEvent
  | startElement (name : String)
  | characters (text : String)
  | endElement
  | parseError
  | otherEvent
deriving DecidableEq, Repr

/-- The errors `read_manifest_from_string` can return: the four validation
bails and the propagated `semver` parse error (`Version::parse(&text)?`). -/
inductive ManifestError
  | missingId
  | unsupportedOs (os : String)
  | missingVersion
  | missingMainExe
  | semverError (text : String)
deriving DecidableEq, Repr

/-- The `Characters` arm of the scan: assign `text` to the field named by the
innermost open element, in the source's comparison order; unknown elements are
ignored; a bad `<version>` text propagates the semver error. -/
def applyField (obj : Manifest) (el text : String) : Except ManifestError Manifest :=
  if el = "id" then .ok { obj with id := text }
  else if el = "version" then
    match semverParse text.data with
    | none => .error (.semverError text)
    | some v => .ok { obj with version := v }
  else if el = "title" then .ok { obj with title := text }
  else if el = "authors" then .ok { obj with authors := text }
  else if el = "description" then .ok { obj with description := text }
  else if el = "machineArchitecture" then .ok { obj with machine_architecture := text }
  else if el = "runtimeDependencies" then .ok { obj with runtime_dependencies := text }
  else if el = "mainExe" then .ok { obj with main_exe := text }
  else if el = "os" then .ok { obj with os := text }
  else if el = "osMinVersion" then .ok { obj with os_min_version := text }
  else .ok obj

/-- The event loop of `read_manifest_from_string`: a stack of open element
names (pushed on `StartElement`, popped on `EndElement`, the Rust `Vec` top is
the list head here); `Characters` with an empty stack is skipped; a reader
error `break`s out, keeping the fields filled so far. -/
def scanEvents : List XmlEvent → Manifest → List String → Except ManifestError (Manifest × List String)
  | [], obj, vec => .ok (obj, vec)
  | .startElement n :: rest, obj, vec => scanEvents rest obj (n :: vec)
  | .characters _ :: rest, obj, [] => scanEvents rest obj []
  | .characters t :: rest, obj, el :: tl =>
    (match applyField obj el t with
     | .error e => .error e
     | .ok obj2 => scanEvents rest obj2 (el :: tl))
  | .endElement :: rest, obj, vec => scanEvents rest obj vec.tail
  | .parseError :: _, obj, vec => .ok (obj, vec)
  | .otherEvent :: rest, obj, vec => scanEvents rest obj vec

/-- The post-scan validation of `read_manifest_from_string`, in source order
with first failure winning, then the empty-title default. -/
def validateManifest (obj : Manifest) : Except ManifestError Manifest :=
  if obj.id = "" then .error .missingId
  else if obj.os ≠ "" ∧ obj.os ≠ "win" then .error (.unsupportedOs obj.os)
  else if obj.version = Version.zero then .error .missingVersion
  else if obj.main_exe = "" then .error .missingMainExe
  else if obj.title = "" then .ok { obj with title := obj.id }
  else .ok obj

/-- `read_manifest_from_string`, taken at the event-stream interface produced
by the external `xml-rs` reader. -/
def read_manifest_from_events (events : List XmlEvent) : Except ManifestError Manifest :=
  match scanEvents events Manifest.default [] with
  | .error e => .error e
  | .ok (obj, _) => validateManifest obj

/-! ## File-name grammar (`parse_package_file_name` and its regexes) -/

/-- The `EntryNameInfo` struct (defaults: empty strings, `Version::new(0,0,0)`,
`false`, `None`). -/
structure EntryNameInfo where
  name : String
  version : Version
  is_delta : Bool
  file_path : String
  os : Option String
  os_min_ver : Option String
  os_arch : Option String
deriving DecidableEq, Repr

def EntryNameInfo.default : EntryNameInfo := ⟨"", Version.zero, false, "", none, none, none⟩

/-- One token of an end-anchored pattern: a case-sensitive literal, a
case-insensitive literal (stored lower-case), or the unescaped-dot wildcard
(any character except newline). -/
inductive SufTok
  | lit (c : Char)
  | caseLit (c : Char)
  | wild
deriving DecidableEq, Repr

def sufTokMatch : SufTok → Char → Bool
  | .lit c, x => x = c
  | .caseLit c, x => simpleFold x = c
  | .wild, x => x ≠ '\n'

def sufMatchList : List SufTok → List Char → Bool
  | [], [] => true
  | t :: ts, x :: xs => sufTokMatch t x && sufMatchList ts xs
  | _, _ => false

/-- `is_match` of an end-anchored (`…$`) pattern of fixed length: the last
`pat.length` characters must match token-wise. -/
def sufIsMatch (pat : List SufTok) (s : List Char) : Bool :=
  sufMatchList pat (s.drop (s.length - pat.length))

/-- `ENTRY_SUFFIX_FULL = (?i)-full.nupkg$` (the dot is a wildcard). -/
def entrySuffixFull : List SufTok :=
  [.caseLit '-', .caseLit 'f', .caseLit 'u', .caseLit 'l', .caseLit 'l', .wild,
   .caseLit 'n', .caseLit 'u', .caseLit 'p', .caseLit 'k', .caseLit 'g']

/-- `ENTRY_SUFFIX_DELTA = (?i)-delta.nupkg$` (the dot is a wildcard). -/
def entrySuffixDelta : List SufTok :=
  [.caseLit '-', .caseLit 'd', .caseLit 'e', .caseLit 'l', .caseLit 't', .caseLit 'a', .wild,
   .caseLit 'n', .caseLit 'u', .caseLit 'p', .caseLit 'k', .caseLit 'g']

/-- `(0|[1-9]\d*)` at the head of the list: `0` alone, or a nonzero digit
followed greedily by digits; returns the remainder. -/
def anchorComp : List Char → Option (List Char)
  | '0' :: rest => some rest
  | c :: rest => if '1' ≤ c && c ≤ '9' then some (rest.dropWhile isDigitCh) else none
  | [] => none

/-- At-position match of `ENTRY_VERSION_START =
`[\.-](0|[1-9]\d*)\.(0|[1-9]\d*)($|[^\d])`. -/
def anchorMatchAt : List Char → Bool
  | d :: rest =>
    (d = '.' || d = '-') &&
      (match anchorComp rest with
       | none => false
       | some r1 =>
         match r1 with
         | '.' :: r2 =>
           (match anchorComp r2 with
            | none => false
            | some r3 =>
              match r3 with
              | [] => true
              | c :: _ => !isDigitCh c)
         | _ => false)
  | [] => false

/-- `ENTRY_VERSION_START.find`: index of the leftmost match. -/
def anchorFindFrom : List Char → Nat → Option Nat
  | [], _ => none
  | l@(_ :: rest), i => if anchorMatchAt l then some i else anchorFindFrom rest (i + 1)

/-- The named captures of `ENTRY_RID` (original characters, as `as_str`). -/
structure RidCaps where
  os : Option (List Char)
  ver : Option (List Char)
  arch : Option (List Char)
deriving DecidableEq, Repr

/-- Case-insensitive literal match (pattern given lower-case) at the head of
`s`; returns the original matched characters and the remainder. -/
def matchCI : List Char → List Char → Option (List Char × List Char)
  | [], s => some ([], s)
  | _ :: _, [] => none
  | p :: ps, x :: xs =>
    if simpleFold x = p then
      match matchCI ps xs with
      | none => none
      | some (m, r) => some (x :: m, r)
    else none

/-- The `osx|win` alternation of `ENTRY_RID`, in source order. -/
def tryOs (s : List Char) : Option (List Char × List Char) :=
  match matchCI ['o', 's', 'x'] s with
  | some r => some r
  | none => matchCI ['w', 'i', 'n'] s

/-- The `(?:-(?<arch>x64|x86|arm64))` group of `ENTRY_RID`. -/
def tryArch (s : List Char) : Option (List Char × List Char) :=
  match s with
  | '-' :: t =>
    (match matchCI ['x', '6', '4'] t with
     | some r => some r
     | none =>
       match matchCI ['x', '8', '6'] t with
       | some r => some r
       | none => matchCI ['a', 'r', 'm', '6', '4'] t)
  | _ => none

/-- Finish an `ENTRY_RID` match attempt: the remainder must be consumed by the
optional arch group and then `$`. -/
def finishArch (osCap verCap : Option (List Char)) (rest : List Char) : Option RidCaps :=
  if rest.isEmpty then some ⟨osCap, verCap, none⟩
  else
    match tryArch rest with
    | some (a, r) => if r.isEmpty then some ⟨osCap, verCap, some a⟩ else none
    | none => none

def isVerCh (c : Char) : Bool := isDigitCh c || c = '.'

/-- After the os alternation: the greedy `\.?` then the greedy optional
`(?<ver>[\d\.]+)?`.  When `r1` starts with `'.'` the backtracking alternative
that leaves the dot to the ver group reaches the same remainder, so the
preferred (dot-consuming) branch alone is faithful. -/
def afterOs (osCap : List Char) (r1 : List Char) : Option RidCaps :=
  let r := if r1.head? = some '.' then r1.tail else r1
  let verCs := r.takeWhile isVerCh
  finishArch (some osCap) (if verCs.isEmpty then none else some verCs) (r.dropWhile isVerCh)

/-- At-position match of
`ENTRY_RID = (?i)(-(?<os>osx|win)\.?(?<ver>[\d\.]+)?)?(?:-(?<arch>x64|x86|arm64))?$`
with leftmost-first preference: the os group is tried first, falling back to
skipping it (the arch group alone, or the empty match at end of input). -/
def matchRidAt (t : List Char) : Option RidCaps :=
  match t with
  | [] => finishArch none none []
  | c :: t1 =>
    if c = '-' then
      match tryOs t1 with
      | some (osCap, r1) =>
        (match afterOs osCap r1 with
         | some caps => some caps
         | none => finishArch none none (c :: t1))
      | none => finishArch none none (c :: t1)
    else finishArch none none (c :: t1)

/-- `ENTRY_RID.find`: leftmost match position and its captures (the source
calls `find` and `captures` separately; both compute the same match). -/
def ridFindFrom : List Char → Nat → Option (Nat × RidCaps)
  | [], i =>
    (match matchRidAt [] with
     | some caps => some (i, caps)
     | none => none)
  | l@(_ :: rest), i =>
    (match matchRidAt l with
     | some caps => some (i, caps)
     | none => ridFindFrom rest (i + 1))

/-- Lines 441-466 of `parse_package_file_name`: locate the RID suffix in the
candidate version string, parse the part before it as a semantic version, and
populate the captures (the `rid_idx.is_none` fallback parses the whole
string). -/
def parseVersionRid (versionCs : List Char) (entryName : String) (delta : Bool) :
    Option EntryNameInfo :=
  match ridFindFrom versionCs 0 with
  | none =>
    (match semverParse versionCs with
     | none => none
     | some v =>
       some { EntryNameInfo.default with name := entryName, is_delta := delta, version := v })
  | some (ridIdx, caps) =>
    match semverParse (versionCs.take ridIdx) with
    | none => none
    | some v =>
      some { name := entryName
             version := v
             is_delta := delta
             file_path := ""
             os := caps.os.map (fun l => String.mk l)
             os_min_ver := caps.ver.map (fun l => String.mk l)
             os_arch := caps.arch.map (fun l => String.mk l) }

/-- `parse_package_file_name` (bundle.rs lines 419-467). -/
def parse_package_file_name (nameStr : String) : Option EntryNameInfo :=
  let nameCs := nameStr.data
  let full := sufIsMatch entrySuffixFull nameCs
  let delta := sufIsMatch entrySuffixDelta nameCs
  if !full && !delta then none
  else
    -- the matched suffix regex removes its matched trailing characters
    let nv :=
      if full then nameCs.take (nameCs.length - entrySuffixFull.length)
      else nameCs.take (nameCs.length - entrySuffixDelta.length)
    match anchorFindFrom nv 0 with
    | none => none
    | some verIdx => parseVersionRid (nv.drop (verIdx + 1)) ⟨nv.take verIdx⟩ delta

/-! ## Archive accessor (`BundleInfo` methods) -/

/-- One zip entry: its name, and its byte content, with `data = none` meaning
the bytes cannot be opened or read (the zip-level `by_index` / read failures
are merged into this one flag). -/
structure ZipEntry where
  name : String
  data : Option (List Nat)
deriving DecidableEq, Repr

/-- A bundle, as the ordered entry table of its zip archive. -/
abbrev BundleZip := List ZipEntry

def containsSub (needle : List Char) : List Char → Bool
  | [] => needle.isEmpty
  | l@(_ :: rest) => needle.isPrefixOf l || containsSub needle rest

def endsWithStr (suffix s : String) : Bool := suffix.data.isSuffixOf s.data

def find_zip_file_from : List ZipEntry → Nat → (String → Bool) → Option Nat
  | [], _, _ => none
  | e :: rest, i, p => if p e.name then some i else find_zip_file_from rest (i + 1) p

/-- `find_zip_file`: first entry index, in archive order, whose name satisfies
the predicate. -/
def find_zip_file (b : BundleZip) (p : String → Bool) : Option Nat :=
  find_zip_file_from b 0 p

/-- The splash lookup predicate: `name.contains("splashimage")`. -/
def splashNamePred (n : String) : Bool := containsSub "splashimage".data n.data

/-- `get_splash_bytes`: best effort; every failure (no match, unreadable
bytes, empty read) returns `none`. -/
def get_splash_bytes (b : BundleZip) : Option (List Nat) :=
  match find_zip_file b splashNamePred with
  | none => none
  | some i =>
    match b.get? i with
    | none => none
    | some e =>
      match e.data with
      | none => none
      | some bs => if bs.isEmpty then none else some bs

/-- `extract_zip_idx_to_path`: read entry `i` fully and write it to `path`;
the write performed is returned, `none` is a propagated extraction error. -/
def extract_zip_idx_to_path (b : BundleZip) (i : Nat) (path : String) :
    Option (String × List Nat) :=
  match b.get? i with
  | none => none
  | some e =>
    match e.data with
    | none => none
    | some d => some (path, d)

/-- `extract_zip_predicate_to_path`: `find_zip_file` then
`extract_zip_idx_to_path`; any failure is `none`. -/
def extract_zip_predicate_to_path (b : BundleZip) (p : String → Bool) (path : String) :
    Option (Nat × (String × List Nat)) :=
  match find_zip_file b p with
  | none => none
  | some i =>
    match extract_zip_idx_to_path b i path with
    | none => none
    | some w => some (i, w)

/-- `get_file_names`: the entry names in archive order. -/
def get_file_names (b : BundleZip) : List String := b.map (·.name)

def isSep (c : Char) : Bool := c = '/' || c = '\\'

/-- At-position match of `lib[\\/][^\\/]*[\\/]`, returning the match length. -/
def libMatchLen : List Char → Option Nat
  | 'l' :: 'i' :: 'b' :: c :: rest =>
    if isSep c then
      let seg := rest.takeWhile (fun d => !isSep d)
      match rest.drop seg.length with
      | d :: _ => if isSep d then some (seg.length + 5) else none
      | [] => none
    else none
  | _ => none

def libFindFrom : List Char → Nat → Option (Nat × Nat)
  | [], _ => none
  | l@(_ :: rest), i =>
    (match libMatchLen l with
     | some len => some (i, len)
     | none => libFindFrom rest (i + 1))

/-- `re.is_match(key)` for the lib-content pattern. -/
def libIsMatch (s : List Char) : Bool := (libFindFrom s 0).isSome

/-- `re.replace(key, "")`: remove the leftmost `lib/<dir>/` match. -/
def libReplaceFirst (s : List Char) : List Char :=
  match libFindFrom s 0 with
  | none => s
  | some (i, len) => s.take i ++ s.drop (i + len)

/-- `_ExecutionStub.exe$` (case-sensitive; the dot is a wildcard). -/
def stubSuffixPat : List SufTok :=
  [.lit '_', .lit 'E', .lit 'x', .lit 'e', .lit 'c', .lit 'u', .lit 't', .lit 'i', .lit 'o',
   .lit 'n', .lit 'S', .lit 't', .lit 'u', .lit 'b', .wild, .lit 'e', .lit 'x', .lit 'e']

def pathJoin (a b : String) : String := ⟨a.data ++ '/' :: b.data⟩

/-- `to_str().unwrap().replace("/", "\\")`. -/
def backslashify (s : String) : String :=
  ⟨s.data.map (fun c => if c = '/' then '\\' else c)⟩

inductive ExtractErr
  | missingManifest
  | ioError
deriving DecidableEq, Repr

/-- The observable effects of one `extract_lib_contents_to_path` call: the
file writes performed (in order), the progress-callback invocations (in
order, each recorded as the loop index `i` from which the program computes
the f32 percentage argument — the argument itself is not modelled), and the
final outcome. -/
structure ExtractTrace where
  writes : List (String × List Nat)
  progressCalls : List Nat
  result : Option ExtractErr
deriving DecidableEq, Repr

/-- The per-entry loop of `extract_lib_contents_to_path` (lines 148-169):
skip the updater entry, non-lib entries, directory entries and execution
stubs; extract the rest and report progress after each extraction.  `ws` and
`ps` accumulate the writes and progress calls already made (newest first). -/
def extractLoop (b : BundleZip) (path : String) (n : Nat) (upd : Option Nat) :
    List String → Nat → List (String × List Nat) → List Nat → ExtractTrace
  | [], _, ws, ps => ⟨ws.reverse, ps.reverse, none⟩
  | key :: rest, i, ws, ps =>
    if upd == some i || !libIsMatch key.data || endsWithStr "/" key || endsWithStr "\\" key then
      extractLoop b path n upd rest (i + 1) ws ps
    else
      let fpz : String := ⟨libReplaceFirst key.data⟩
      if sufIsMatch stubSuffixPat fpz.data then
        extractLoop b path n upd rest (i + 1) ws ps
      else
        match extract_zip_idx_to_path b i (backslashify (pathJoin path fpz)) with
        | none => ⟨ws.reverse, ps.reverse, some .ioError⟩
        | some w => extractLoop b path n upd rest (i + 1) (w :: ws) (i :: ps)

/-- `extract_lib_contents_to_path` (lines 133-172): extract the `.nuspec`
manifest to `<path>/sq.version` first (any failure there becomes the
missing-manifest error), then run the per-entry loop. -/
def extract_lib_contents_to_path (b : BundleZip) (path : String) : ExtractTrace :=
  let files := get_file_names b
  let numFiles := files.length
  let updaterIdx := find_zip_file b (fun nm => endsWithStr "Squirrel.exe" nm)
  match extract_zip_predicate_to_path b (fun nm => endsWithStr ".nuspec" nm)
      (pathJoin path "sq.version") with
  | none => ⟨[], [], some .missingManifest⟩
  | some (_, w) => extractLoop b path numFiles updaterIdx files 0 [w] []

/-! ## Helper lemmas -/

/-- Processing a parse-error-free event prefix that ends in state
`(obj2, vec2)` composes with the processing of the remaining events. -/
theorem scanEvents_append (pre rest : List XmlEvent) (obj : Manifest) (vec : List String)
    (obj2 : Manifest) (vec2 : List String)
    (hne : XmlEvent.parseError ∉ pre)
    (h : scanEvents pre obj vec = Except.ok (obj2, vec2)) :
    scanEvents (pre ++ rest) obj vec = scanEvents rest obj2 vec2 := by
  induction pre generalizing obj vec with
  | nil =>
    simp only [scanEvents, Except.ok.injEq, Prod.mk.injEq] at h
    obtain ⟨h1, h2⟩ := h
    subst h1; subst h2
    simp
  | cons e pre ih =>
    have hne' : XmlEvent.parseError ∉ pre := fun hm => hne (List.mem_cons_of_mem _ hm)
    cases e with
    | startElement n =>
      simp only [scanEvents, List.cons_append] at h ⊢
      exact ih _ _ hne' h
    | characters t =>
      cases vec with
      | nil =>
        simp only [scanEvents, List.cons_append] at h ⊢
        exact ih _ _ hne' h
      | cons el tl =>
        simp only [scanEvents, List.cons_append] at h ⊢
        cases happ : applyField obj el t with
        | error e => simp only [happ] at h; cases h
        | ok obj3 => simp only [happ] at h; exact ih _ _ hne' h
    | endElement =>
      simp only [scanEvents, List.cons_append] at h ⊢
      exact ih _ _ hne' h
    | parseError => exact absurd (List.mem_cons_self _ _) hne
    | otherEvent =>
      simp only [scanEvents, List.cons_append] at h ⊢
      exact ih _ _ hne' h

/-- `applyField` on the `version` element with an invalid semver text returns
the propagated semver error. -/
theorem applyField_version_bad (obj : Manifest) (t : String)
    (h : semverParse t.data = none) :
    applyField obj "version" t = Except.error (ManifestError.semverError t) := by
  unfold applyField
  rw [if_neg (by decide), if_pos rfl, h]

/-! ## Claim C1 -/

def c1Events : List XmlEvent :=
  [.startElement "id", .characters "app", .endElement,
   .startElement "version", .characters "1.0.0", .endElement,
   .startElement "mainExe", .characters "run.exe", .endElement,
   .parseError]

def c1Manifest : Manifest :=
  { Manifest.default with
    id := "app",
    version := ⟨1, 0, 0, "", ""⟩,
    main_exe := "run.exe",
    title := "app" }

/-- C1, counterexample: an event stream hitting a structural parse error after
`id`, `version` and `mainExe` were all filled.  The claim says a
required-field validation error must surface; the code instead returns a
successfully decoded `Manifest` — the filled fields are retained, not
discarded. -/
theorem c1_counterexample :
    XmlEvent.parseError ∈ c1Events ∧
    read_manifest_from_events c1Events = Except.ok c1Manifest :=
  ⟨by decide, by rfl⟩

/-- C1, amended: a structural parse error aborts the scan early — every event
after the first error is ignored — and the fields already filled are retained
and validated: when the error-free prefix yields the partial manifest `obj`,
the result is exactly `validateManifest obj` (a validation error, or a decoded
`Manifest` when the required fields were filled before the error; never a raw
parse error). -/
theorem c1_parse_error_aborts (pre post : List XmlEvent) :
    read_manifest_from_events (pre ++ XmlEvent.parseError :: post) =
      read_manifest_from_events (pre ++ [XmlEvent.parseError]) ∧
    (∀ (obj : Manifest) (vec : List String),
      XmlEvent.parseError ∉ pre →
      scanEvents pre Manifest.default [] = Except.ok (obj, vec) →
      read_manifest_from_events (pre ++ XmlEvent.parseError :: post) = validateManifest obj) := by
  constructor
  · unfold read_manifest_from_events
    have habs : ∀ (l l' : List XmlEvent) (obj : Manifest) (vec : List String),
        scanEvents (l ++ XmlEvent.parseError :: l') obj vec =
          scanEvents (l ++ [XmlEvent.parseError]) obj vec := by
      intro l
      induction l with
      | nil => intro l' obj vec; simp [scanEvents]
      | cons e l ih =>
        intro l' obj vec
        cases e with
        | startElement n => simp only [scanEvents, List.cons_append]; exact ih _ _ _
        | characters t =>
          cases vec with
          | nil =>
            simp only [scanEvents, List.cons_append]
            exact ih _ _ _
          | cons el tl =>
            simp only [scanEvents, List.cons_append]
            cases happ : applyField obj el t with
            | error e => rfl
            | ok obj3 => exact ih _ _ _
        | endElement => simp only [scanEvents, List.cons_append]; exact ih _ _ _
        | parseError => simp [scanEvents]
        | otherEvent => simp only [scanEvents, List.cons_append]; exact ih _ _ _
    rw [habs]
  · intro obj vec hne h
    unfold read_manifest_from_events
    rw [scanEvents_append pre (XmlEvent.parseError :: post) Manifest.default [] obj vec hne h]
    rfl

def c1wPre : List XmlEvent := [.startElement "id", .characters "x", .endElement]

/-- Witness for C1 at a concrete prefix and suffix. -/
theorem c1_witness :
    read_manifest_from_events (c1wPre ++ XmlEvent.parseError :: [XmlEvent.startElement "os"]) =
      validateManifest { Manifest.default with id := "x" } :=
  (c1_parse_error_aborts c1wPre [XmlEvent.startElement "os"]).2
    { Manifest.default with id := "x" } [] (by decide) rfl

/-! ## Claim C4 -/

/-- C4: for every decoded field assignment produced by the XML scan, the
validation checks fire in the fixed order id-empty, os, version, mainExe;
the first failing check determines the error, and when all pass a `Manifest`
is returned with an empty title defaulted to `id`. -/
theorem c4_validation_order (ev : List XmlEvent) (obj : Manifest) (vec : List String)
    (h : scanEvents ev Manifest.default [] = Except.ok (obj, vec)) :
    (obj.id = "" → read_manifest_from_events ev = Except.error ManifestError.missingId) ∧
    (obj.id ≠ "" → obj.os ≠ "" → obj.os ≠ "win" →
      read_manifest_from_events ev = Except.error (ManifestError.unsupportedOs obj.os)) ∧
    (obj.id ≠ "" → (obj.os = "" ∨ obj.os = "win") → obj.version = Version.zero →
      read_manifest_from_events ev = Except.error ManifestError.missingVersion) ∧
    (obj.id ≠ "" → (obj.os = "" ∨ obj.os = "win") → obj.version ≠ Version.zero →
      obj.main_exe = "" →
      read_manifest_from_events ev = Except.error ManifestError.missingMainExe) ∧
    (obj.id ≠ "" → (obj.os = "" ∨ obj.os = "win") → obj.version ≠ Version.zero →
      obj.main_exe ≠ "" →
      read_manifest_from_events ev =
        Except.ok { obj with title := if obj.title = "" then obj.id else obj.title }) := by
  have hr : read_manifest_from_events ev = validateManifest obj := by
    unfold read_manifest_from_events
    rw [h]
  rw [hr]
  unfold validateManifest
  refine ⟨fun h1 => by rw [if_pos h1], fun h1 h2 h3 => ?_, fun h1 h2 h3 => ?_,
    fun h1 h2 h3 h4 => ?_, fun h1 h2 h3 h4 => ?_⟩
  · rw [if_neg h1, if_pos ⟨h2, h3⟩]
  · have hos : ¬(obj.os ≠ "" ∧ obj.os ≠ "win") := by
      rcases h2 with h2 | h2 <;> simp [h2]
    rw [if_neg h1, if_neg hos, if_pos h3]
  · have hos : ¬(obj.os ≠ "" ∧ obj.os ≠ "win") := by
      rcases h2 with h2 | h2 <;> simp [h2]
    rw [if_neg h1, if_neg hos, if_neg h3, if_pos h4]
  · have hos : ¬(obj.os ≠ "" ∧ obj.os ≠ "win") := by
      rcases h2 with h2 | h2 <;> simp [h2]
    rw [if_neg h1, if_neg hos, if_neg h3, if_neg h4]
    by_cases ht : obj.title = ""
    · rw [if_pos ht, if_pos ht]
    · rw [if_neg ht, if_neg ht]

def c4wEvents : List XmlEvent :=
  [.startElement "id", .characters "app", .endElement,
   .startElement "version", .characters "1.2.3", .endElement,
   .startElement "mainExe", .characters "run.exe", .endElement]

def c4wObj : Manifest :=
  { Manifest.default with
    id := "app",
    version := ⟨1, 2, 3, "", ""⟩,
    main_exe := "run.exe" }

/-- Witness for C4: the all-checks-pass case on a concrete event stream, with
the empty title defaulted to `id`. -/
theorem c4_witness :
    read_manifest_from_events c4wEvents =
      Except.ok { c4wObj with title := if c4wObj.title = "" then c4wObj.id else c4wObj.title } :=
  (c4_validation_order c4wEvents c4wObj [] rfl).2.2.2.2
    (by decide) (Or.inl rfl) (by decide) (by decide)

/-! ## Claim C10 -/

/-- C10: when the scan reaches a `Characters` event under an open `<version>`
element whose text is not a valid semantic version, the semver parse error is
returned immediately — the events after it (`post`) are never examined, and no
"missing version" validation error is produced. -/
theorem c10_semver_error_aborts (pre post : List XmlEvent) (t : String)
    (obj : Manifest) (stack : List String)
    (hne : XmlEvent.parseError ∉ pre)
    (hpre : scanEvents pre Manifest.default [] = Except.ok (obj, "version" :: stack))
    (hbad : semverParse t.data = none) :
    read_manifest_from_events (pre ++ XmlEvent.characters t :: post) =
      Except.error (ManifestError.semverError t) := by
  unfold read_manifest_from_events
  rw [scanEvents_append pre (XmlEvent.characters t :: post) Manifest.default []
    obj ("version" :: stack) hne hpre]
  simp only [scanEvents, applyField_version_bad obj t hbad]

/-- Witness for C10 at a concrete stream: `<version>abc` followed by a
well-formed `<id>` element that is never reached. -/
theorem c10_witness :
    read_manifest_from_events
      ([XmlEvent.startElement "version"] ++ XmlEvent.characters "abc" ::
        [XmlEvent.startElement "id", XmlEvent.characters "app"]) =
      Except.error (ManifestError.semverError "abc") :=
  c10_semver_error_aborts [XmlEvent.startElement "version"]
    [XmlEvent.startElement "id", XmlEvent.characters "app"] "abc"
    Manifest.default [] (by decide) rfl (by decide)

/-! ## Claim C3 -/

/-- Modelled from the spec's words for claim C3: the filename ends,
case-insensitively, with the LITERAL suffix `-full.nupkg` or `-delta.nupkg`
(the dot being a real dot). -/
def specLiteralSuffix (s : String) : Bool :=
  "-full.nupkg".data.isSuffixOf (s.data.map simpleFold) ||
  "-delta.nupkg".data.isSuffixOf (s.data.map simpleFold)

/-- C3, counterexample: `Clowd.Squirrel-1.0.0-fullxnupkg` does not end with
either literal suffix, yet `parse_package_file_name` accepts it, because the
dot in `-full.nupkg$` is an unescaped wildcard. -/
theorem c3_counterexample :
    specLiteralSuffix "Clowd.Squirrel-1.0.0-fullxnupkg" = false ∧
    (parse_package_file_name "Clowd.Squirrel-1.0.0-fullxnupkg").isSome = true := by
  constructor
  · decide
  · decide

/-- C3, amended: every filename that does not end, case-insensitively, with
`-full` or `-delta` followed by one arbitrary non-newline character and
`nupkg` is rejected (returns `none`); equivalently every accepted filename
ends with one of those two wildcard suffixes. -/
theorem c3_suffix_required (nameStr : String)
    (h1 : sufIsMatch entrySuffixFull nameStr.data = false)
    (h2 : sufIsMatch entrySuffixDelta nameStr.data = false) :
    parse_package_file_name nameStr = none := by
  simp [parse_package_file_name, h1, h2]

/-- Witness for C3 at a concrete rejected filename. -/
theorem c3_witness : parse_package_file_name "MyCoolApp-1.2.3.nupkg" = none :=
  c3_suffix_required "MyCoolApp-1.2.3.nupkg" (by decide) (by decide)

/-! ## Claim C6 -/

/-- C6: `MyCoolApp-1.2-full.nupkg`, whose version portion has only two numeric
components, yields no-match.  (The version-start anchor does match `-1.2` at
end of the stripped name; the rejection happens because the two-component
string `1.2` fails semver parsing.) -/
theorem c6_two_component_no_match :
    parse_package_file_name "MyCoolApp-1.2-full.nupkg" = none := by
  decide

/-! ## Claim C8 -/

/-- C8: `ENTRY_RID.find` succeeds on every candidate version string — the
whole pattern is optional and matches zero-length at end of input — so the
`rid_idx.is_none` fallback branch of `parse_package_file_name` (source lines
442-450) is unreachable. -/
theorem c8_rid_always_matches (v : List Char) (i : Nat) :
    (ridFindFrom v i).isSome = true := by
  induction v generalizing i with
  | nil => rfl
  | cons c rest ih =>
    unfold ridFindFrom
    cases h : matchRidAt (c :: rest) with
    | some caps => rfl
    | none => exact ih (i + 1)

/-! ## Claim C9 -/

/-- In a completed `ENTRY_RID` match attempt the captures are exactly the os
and ver values carried into `finishArch`. -/
theorem finishArch_caps (osCap verCap : Option (List Char)) (rest : List Char) (caps : RidCaps)
    (h : finishArch osCap verCap rest = some caps) :
    caps.os = osCap ∧ caps.ver = verCap := by
  unfold finishArch at h
  by_cases he : rest.isEmpty
  · rw [if_pos he] at h
    cases h
    exact ⟨rfl, rfl⟩
  · rw [if_neg he] at h
    cases ht : tryArch rest with
    | none => rw [ht] at h; cases h
    | some pr =>
      obtain ⟨a, r⟩ := pr
      simp only [ht] at h
      by_cases hr : r.isEmpty
      · rw [if_pos hr] at h
        cases h
        exact ⟨rfl, rfl⟩
      · rw [if_neg hr] at h
        cases h

/-- The ver capture of `ENTRY_RID` is nested inside the os group: a match with
a ver capture always has an os capture. -/
theorem matchRidAt_ver_os (t : List Char) (caps : RidCaps)
    (h : matchRidAt t = some caps) :
    caps.ver.isSome = true → caps.os.isSome = true := by
  intro hv
  have noA : finishArch none none t = some caps → False := by
    intro hfin
    obtain ⟨-, hver⟩ := finishArch_caps none none t caps hfin
    rw [hver] at hv
    cases hv
  cases t with
  | nil => exact absurd h noA
  | cons c t1 =>
    simp only [matchRidAt] at h
    by_cases hc : c = '-'
    · rw [if_pos hc] at h
      cases hos : tryOs t1 with
      | none => simp only [hos] at h; exact absurd h noA
      | some pr =>
        obtain ⟨osCap, r1⟩ := pr
        simp only [hos] at h
        cases haf : afterOs osCap r1 with
        | none => simp only [haf] at h; exact absurd h noA
        | some caps2 =>
          simp only [haf, Option.some.injEq] at h
          subst h
          simp only [afterOs] at haf
          obtain ⟨hos2, -⟩ := finishArch_caps _ _ _ _ haf
          rw [hos2]
          rfl
    · rw [if_neg hc] at h
      exact absurd h noA

/-- The nested-capture invariant carries through `ENTRY_RID.find`. -/
theorem ridFindFrom_ver_os (v : List Char) (i j : Nat) (caps : RidCaps)
    (h : ridFindFrom v i = some (j, caps)) :
    caps.ver.isSome = true → caps.os.isSome = true := by
  induction v generalizing i with
  | nil =>
    intro hv
    have hr : ridFindFrom [] i = some (i, ⟨none, none, none⟩) := rfl
    rw [hr] at h
    cases h
    cases hv
  | cons c rest ih =>
    intro hv
    simp only [ridFindFrom] at h
    cases hm : matchRidAt (c :: rest) with
    | none =>
      simp only [hm] at h
      exact ih (i + 1) h hv
    | some caps2 =>
      simp only [hm, Option.some.injEq, Prod.mk.injEq] at h
      obtain ⟨-, hcaps⟩ := h
      subst hcaps
      exact matchRidAt_ver_os _ _ hm hv

/-- The same invariant for the entry built by `parseVersionRid`. -/
theorem parseVersionRid_ver_os (versionCs : List Char) (entryName : String) (delta : Bool)
    (e : EntryNameInfo) (h : parseVersionRid versionCs entryName delta = some e)
    (hv : e.os_min_ver.isSome = true) : e.os.isSome = true := by
  unfold parseVersionRid at h
  cases hrid : ridFindFrom versionCs 0 with
  | none =>
    simp only [hrid] at h
    cases hsv : semverParse versionCs with
    | none => simp only [hsv] at h; cases h
    | some v =>
      simp only [hsv, Option.some.injEq] at h
      subst h
      cases hv
  | some pr =>
    obtain ⟨ridIdx, caps⟩ := pr
    simp only [hrid] at h
    cases hsv : semverParse (versionCs.take ridIdx) with
    | none => simp only [hsv] at h; cases h
    | some v =>
      simp only [hsv, Option.some.injEq] at h
      subst h
      have hver : caps.ver.isSome = true := by
        cases hcv : caps.ver with
        | none => rw [hcv] at hv; cases hv
        | some l => rfl
      have hos := ridFindFrom_ver_os versionCs 0 ridIdx caps hrid hver
      cases hco : caps.os with
      | none => rw [hco] at hos; cases hos
      | some l => simp [hco]

/-- C9: in every `EntryNameInfo` returned by `parse_package_file_name`, an
`os_min_ver` capture implies an `os` capture (the ver group is nested inside
the os group of `ENTRY_RID`). -/
theorem c9_os_min_ver_implies_os (nameStr : String) (e : EntryNameInfo)
    (h : parse_package_file_name nameStr = some e)
    (hv : e.os_min_ver.isSome = true) : e.os.isSome = true := by
  simp only [parse_package_file_name] at h
  by_cases hsuf : (!sufIsMatch entrySuffixFull nameStr.data &&
      !sufIsMatch entrySuffixDelta nameStr.data) = true
  · rw [if_pos hsuf] at h
    cases h
  · rw [if_neg hsuf] at h
    cases ha : anchorFindFrom (if sufIsMatch entrySuffixFull nameStr.data = true then
        nameStr.data.take (nameStr.data.length - entrySuffixFull.length)
      else nameStr.data.take (nameStr.data.length - entrySuffixDelta.length)) 0 with
    | none => simp only [ha] at h; cases h
    | some verIdx =>
      simp only [ha] at h
      exact parseVersionRid_ver_os _ _ _ _ h hv

def c9wName : String := "Clowd.Squirrel-1.0.0-win10-x64-full.nupkg"

def c9wEntry : EntryNameInfo :=
  ⟨"Clowd.Squirrel", ⟨1, 0, 0, "", ""⟩, false, "", some "win", some "10", some "x64"⟩

/-- Witness for C9 at a concrete parsed filename carrying an os minimum
version. -/
theorem c9_witness : (Bundle.c9wEntry).os.isSome = true :=
  c9_os_min_ver_implies_os c9wName c9wEntry (by decide) (by decide)

/-! ## Claim C7 -/

/-- C7: `get_splash_bytes` is best-effort and never an error: no matching
entry, unreadable bytes, or an empty read all yield `none`, and bytes are
returned only when the first matching entry reads successfully and
non-empty. -/
theorem c7_splash_best_effort (b : BundleZip) :
    (find_zip_file b splashNamePred = none → get_splash_bytes b = none) ∧
    (∀ i e, find_zip_file b splashNamePred = some i → b.get? i = some e →
      e.data = none → get_splash_bytes b = none) ∧
    (∀ i e, find_zip_file b splashNamePred = some i → b.get? i = some e →
      e.data = some [] → get_splash_bytes b = none) ∧
    (∀ bs, get_splash_bytes b = some bs → bs ≠ [] ∧
      ∃ i e, find_zip_file b splashNamePred = some i ∧ b.get? i = some e ∧
        e.data = some bs) := by
  refine ⟨?_, ?_, ?_, ?_⟩
  · intro hf
    simp only [get_splash_bytes, hf]
  · intro i e hf hg hd
    simp only [get_splash_bytes, hf, hg, hd]
  · intro i e hf hg hd
    simp only [get_splash_bytes, hf, hg, hd, List.isEmpty_nil, if_true]
  · intro bs h
    unfold get_splash_bytes at h
    cases hf : find_zip_file b splashNamePred with
    | none => rw [hf] at h; cases h
    | some i =>
      simp only [hf] at h
      cases hg : b.get? i with
      | none => simp only [hg] at h; cases h
      | some e =>
        simp only [hg] at h
        cases hd : e.data with
        | none => simp only [hd] at h; cases h
        | some bs2 =>
          simp only [hd] at h
          by_cases he : bs2.isEmpty
          · rw [if_pos he] at h; cases h
          · rw [if_neg he] at h
            cases h
            refine ⟨?_, i, e, rfl, hg, hd⟩
            intro hnil
            subst hnil
            exact he rfl

def c7wBundle : BundleZip := [⟨"asplashimageb", some []⟩]

/-- Witness for C7: a zero-byte splash entry yields `none`. -/
theorem c7_witness : get_splash_bytes c7wBundle = none :=
  (c7_splash_best_effort c7wBundle).2.2.1 0 ⟨"asplashimageb", some []⟩
    (by decide) (by decide) (by decide)

/-! ## Claim C5 -/

theorem find_zip_file_from_none (l : List ZipEntry) (i : Nat) (p : String → Bool)
    (h : ∀ e ∈ l, p e.name = false) : find_zip_file_from l i p = none := by
  induction l generalizing i with
  | nil => rfl
  | cons e rest ih =>
    unfold find_zip_file_from
    rw [h e (List.mem_cons_self e rest)]
    simp only [Bool.false_eq_true, if_false]
    exact ih (i + 1) (fun e2 he2 => h e2 (List.mem_cons_of_mem _ he2))

/-- C5: a bundle with no entry named `*.nuspec` makes
`extract_lib_contents_to_path` fail with the missing-manifest error before any
file — lib payload or version marker — is written: the trace is empty. -/
theorem c5_no_nuspec_fails (b : BundleZip) (path : String)
    (h : ∀ e ∈ b, endsWithStr ".nuspec" e.name = false) :
    extract_lib_contents_to_path b path = ⟨[], [], some ExtractErr.missingManifest⟩ := by
  have hpred : extract_zip_predicate_to_path b (fun nm => endsWithStr ".nuspec" nm)
      (pathJoin path "sq.version") = none := by
    unfold extract_zip_predicate_to_path find_zip_file
    rw [find_zip_file_from_none b 0 _ h]
  simp only [extract_lib_contents_to_path, hpred]

def c5wBundle : BundleZip := [⟨"lib/app/x.exe", some [1]⟩, ⟨"readme.txt", some [2]⟩]

/-- Witness for C5 at a concrete nuspec-less bundle. -/
theorem c5_witness :
    extract_lib_contents_to_path c5wBundle "root" = ⟨[], [], some ExtractErr.missingManifest⟩ :=
  c5_no_nuspec_fails c5wBundle "root" (by decide)

/-! ## Claim C2 -/

/-- Loop invariant for the per-entry extraction loop: the recorded invocation
indices (newest first in `ps`) are strictly below the current index and
reverse-sorted, and each loop write is paired with exactly one progress
call. -/
theorem extractLoop_spec (b : BundleZip) (path : String) (n : Nat) (upd : Option Nat) :
    ∀ (rem : List String) (i : Nat) (ws : List (String × List Nat)) (ps : List Nat),
      i + rem.length ≤ n →
      List.Chain' (fun a c => c < a) ps →
      (∀ p ∈ ps, p < i) →
      List.Chain' (· < ·) (extractLoop b path n upd rem i ws ps).progressCalls ∧
      (∀ p ∈ (extractLoop b path n upd rem i ws ps).progressCalls, p < n) ∧
      (extractLoop b path n upd rem i ws ps).writes.length + ps.length =
        (extractLoop b path n upd rem i ws ps).progressCalls.length + ws.length := by
  intro rem
  induction rem with
  | nil =>
    intro i ws ps hle hch hbd
    refine ⟨List.chain'_reverse.mpr hch, ?_,
      by simp only [extractLoop, List.length_reverse]; omega⟩
    intro p hp
    have := hbd p (List.mem_reverse.mp hp)
    simp only [List.length_nil] at hle
    omega
  | cons key rest ih =>
    intro i ws ps hle hch hbd
    have hle' : i + 1 + rest.length ≤ n := by
      simp only [List.length_cons] at hle
      omega
    have hbd' : ∀ p ∈ ps, p < i + 1 :=
      fun p hp => Nat.lt_succ_of_lt (hbd p hp)
    simp only [extractLoop]
    split
    · exact ih (i + 1) ws ps hle' hch hbd'
    · split
      · exact ih (i + 1) ws ps hle' hch hbd'
      · cases hx : extract_zip_idx_to_path b i
            (backslashify (pathJoin path ⟨libReplaceFirst key.data⟩)) with
        | none =>
          simp only [hx]
          refine ⟨List.chain'_reverse.mpr hch, ?_,
            by simp only [List.length_reverse]; omega⟩
          intro p hp
          have := hbd p (List.mem_reverse.mp hp)
          simp only [List.length_cons] at hle
          omega
        | some w =>
          simp only [hx]
          have hch2 : List.Chain' (fun a c => c < a) (i :: ps) :=
            List.chain'_cons'.mpr ⟨fun y hy => hbd y (List.mem_of_mem_head? hy), hch⟩
          have hbd2 : ∀ p ∈ i :: ps, p < i + 1 := by
            intro p hp
            rcases List.mem_cons.mp hp with hp | hp
            · omega
            · exact Nat.lt_succ_of_lt (hbd p hp)
          obtain ⟨h1, h2, h3⟩ := ih (i + 1) (w :: ws) (i :: ps) hle' hch2 hbd2
          refine ⟨h1, h2, ?_⟩
          simp only [List.length_cons] at h3
          omega

/-- C2, amended: the progress callback is invoked once per extracted entry —
entries skipped by the filters produce no callback, so on success the number
of invocations equals the number of written files minus the nuspec marker —
and it fires at strictly increasing entry indices, each below the entry count
(the f32 percentage the program computes from that index is floating-point
arithmetic and is not modelled). -/
theorem c2_progress_per_extracted (b : BundleZip) (path : String) :
    List.Chain' (· < ·) (extract_lib_contents_to_path b path).progressCalls ∧
    (∀ p ∈ (extract_lib_contents_to_path b path).progressCalls, p < b.length) ∧
    ((extract_lib_contents_to_path b path).result = none →
      (extract_lib_contents_to_path b path).writes.length =
        (extract_lib_contents_to_path b path).progressCalls.length + 1) := by
  unfold extract_lib_contents_to_path
  cases hx : extract_zip_predicate_to_path b (fun nm => endsWithStr ".nuspec" nm)
      (pathJoin path "sq.version") with
  | none =>
    simp only [hx]
    exact ⟨List.chain'_nil, by simp, by intro hc; cases hc⟩
  | some pr =>
    obtain ⟨idx, w⟩ := pr
    simp only [hx]
    obtain ⟨h1, h2, h3⟩ := extractLoop_spec b path (get_file_names b).length
      (find_zip_file b (fun nm => endsWithStr "Squirrel.exe" nm)) (get_file_names b)
      0 [w] [] (by simp) List.chain'_nil (by simp)
    refine ⟨h1, ?_, fun _ => ?_⟩
    · intro p hp
      have := h2 p hp
      simpa [get_file_names] using this
    · simp only [List.length_nil, List.length_cons] at h3
      omega

def c2wBundle : BundleZip := [⟨"a.nuspec", some [1]⟩, ⟨"lib/app/m.exe", some [2]⟩]

/-- C2, counterexample: a successful extraction over a two-entry bundle whose
`.nuspec` entry is skipped by the filters invokes the progress callback once,
not twice — the claim's "once per archive entry (including entries that were
skipped)" fails. -/
theorem c2_counterexample :
    (extract_lib_contents_to_path c2wBundle "r").result = none ∧
    c2wBundle.length = 2 ∧
    (extract_lib_contents_to_path c2wBundle "r").progressCalls.length = 1 := by
  refine ⟨by decide, by decide, by decide⟩

/-- Witness for C2's amended claim on the same successful bundle. -/
theorem c2_witness :
    (extract_lib_contents_to_path c2wBundle "r").writes.length =
      (extract_lib_contents_to_path c2wBundle "r").progressCalls.length + 1 :=
  (c2_progress_per_extracted c2wBundle "r").2.2 (by decide)

end Bundle
